import Mathlib

/-!
Shallow embedding of the Devconnect Pretix reconciliation engine
(`DevconnectPretixSyncService` and its helpers) and proofs of the spec's
claims about it.  Pure functions of the source are translated directly;
the stateful phases are modelled as explicit state passing over an
`EventDB` record scoped to one (organizer, event) pair, with each phase
returning its success flag, the resulting database and the number of
insert/update/delete statements it issued.  Persistence helpers that are
only imported by the source (ticket queries, event-info queries, the
ticket key helpers) are modelled from the spec and marked as such.
-/

namespace DevconnectPretixSync

/-- One sellable item as returned by the external Pretix API
(`DevconnectPretixItem`): numeric id and English display name (`name.en`). -/
structure DevconnectPretixItem where
  id : Nat
  name : String
deriving DecidableEq, Repr

/-- One local item-info row (`PretixItemInfo`): serial row id, external item
id stored as a string, owning event config id, and display name. -/
structure PretixItemInfo where
  id : Nat
  item_id : String
  devconnect_pretix_events_info_id : Nat
  item_name : String
deriving DecidableEq, Repr

/-- One local event-info row (`PretixEventInfo`): serial row id and the
event's display name. -/
structure PretixEventInfo where
  id : Nat
  event_name : String
deriving DecidableEq, Repr

/-- One local ticket row (`DevconnectPretixTicket`): normalized email, full
name, owning item-info row id, and the soft-delete flag. -/
structure DevconnectPretixTicket where
  email : String
  full_name : String
  devconnect_pretix_items_info_id : Nat
  is_deleted : Bool
deriving DecidableEq, Repr

/-- One order position as returned by the external API: position id, numeric
item id, attendee name, and optional attendee email (`attendee_email` may be
absent, which JavaScript sees as `undefined`). -/
structure DevconnectPretixPosition where
  positionid : Nat
  item : Nat
  attendee_name : String
  attendee_email : Option String
deriving DecidableEq, Repr

/-- One order as returned by the external API: order code, status code
("p" denotes paid), purchaser email, and the list of positions. -/
structure DevconnectPretixOrder where
  code : String
  status : String
  email : String
  positions : List DevconnectPretixPosition
deriving DecidableEq, Repr

/-- Event configuration (`DevconnectPretixEventConfig`): local config id,
external event id, and the set of external item ids considered active. -/
structure DevconnectPretixEventConfig where
  id : Nat
  eventID : String
  activeItemIDs : List String
deriving DecidableEq, Repr

/-- JavaScript `s.toLowerCase()`: lower-case the string character by
character (the same function as `String.toLower`, stated directly on the
character list so that concrete instances evaluate). -/
def jsToLower (s : String) : String := ⟨s.data.map Char.toLower⟩

/-- JavaScript string fallback `a || b`: an absent value and the empty
string are both falsy and fall through to `b`. -/
def jsOrElse (a : Option String) (b : String) : String :=
  match a with
  | none => b
  | some s => if s = "" then b else s

/-- Lookup in a JavaScript `Map` built with `new Map(l.map (x => [key x, x]))`:
insertion overwrites, so `get` returns the LAST element of `l` whose key
matches. -/
def mapGetLast {α κ : Type} [DecidableEq κ] (key : α → κ) : List α → κ → Option α
  | [], _ => none
  | x :: xs, k =>
    match mapGetLast key xs k with
    | some y => some y
    | none => if key x = k then some x else none

/-- Membership test of a JavaScript `Map` built from a list, i.e. `map.has k`:
true exactly when some element of the list has that key. -/
def mapHasKey {α κ : Type} [DecidableEq κ] (key : α → κ) (l : List α) (k : κ) : Bool :=
  l.any (fun x => decide (key x = k))

/-- Body of the inner loop of `ordersToDevconnectTickets` for one position of
a paid order: look the position's item up in the item-info map (keyed by the
stringified item id); a miss silently drops the position; on a hit, emit a
ticket whose email is the attendee email, falling back to the purchaser email
when the attendee email is absent or empty, lower-cased either way. -/
def positionToTicket (itemsInfo : List PretixItemInfo) (orderEmail : String)
    (p : DevconnectPretixPosition) : Option DevconnectPretixTicket :=
  match mapGetLast PretixItemInfo.item_id itemsInfo (toString p.item) with
  | none => none
  | some existingItem =>
    some { email := jsToLower (jsOrElse p.attendee_email orderEmail)
           full_name := p.attendee_name
           devconnect_pretix_items_info_id := existingItem.id
           is_deleted := false }

/-- Whether the inner loop of `ordersToDevconnectTickets` logs the
"order position without attendee email" message for this position: the
position's item is tracked and its attendee email is JavaScript-falsy
(absent or empty). -/
def positionLogsMissingEmail (itemsInfo : List PretixItemInfo)
    (p : DevconnectPretixPosition) : Bool :=
  (mapGetLast PretixItemInfo.item_id itemsInfo (toString p.item)).isSome &&
    (match p.attendee_email with
     | none => true
     | some s => decide (s = ""))

/-- Tickets contributed by one order in `ordersToDevconnectTickets`: an order
whose status is not the literal "p" is skipped whole; otherwise each position
contributes via `positionToTicket`. -/
def orderToTickets (itemsInfo : List PretixItemInfo)
    (order : DevconnectPretixOrder) : List DevconnectPretixTicket :=
  if order.status = "p" then
    order.positions.filterMap (positionToTicket itemsInfo order.email)
  else []

/-- `ordersToDevconnectTickets`: project raw external orders into candidate
local ticket rows, concatenating the per-order contributions in order. -/
def ordersToDevconnectTickets (orders : List DevconnectPretixOrder)
    (itemsInfo : List PretixItemInfo) : List DevconnectPretixTicket :=
  orders.flatMap (orderToTickets itemsInfo)

/-- The local database state for one (organizer, event) pair: the event-info
row (if any), the item-info rows, and the ticket rows for this event config. -/
structure EventDB where
  eventInfo : Option PretixEventInfo
  itemInfos : List PretixItemInfo
  tickets : List DevconnectPretixTicket
deriving DecidableEq, Repr

/-- Number of insert, update and delete statements a phase issued against its
table. -/
structure WriteCounts where
  inserts : Nat
  updates : Nat
  deletes : Nat
deriving DecidableEq, Repr

/-- The all-zero write count. -/
def WriteCounts.zero : WriteCounts := ⟨0, 0, 0⟩

/-- Result of one reconciliation phase: its returned success flag, the
database afterwards, and the writes it issued against its own table. -/
structure PhaseResult where
  ok : Bool
  db : EventDB
  writes : WriteCounts
deriving DecidableEq, Repr

/-- Modelled from the spec: `updatePretixEventsInfo`
(database/queries/pretixEventInfo is not under src/) — a plain SQL update
setting the event name on the row with the given id; it writes
unconditionally, like the item-info update that is in the sources. -/
def updatePretixEventsInfo (info : Option PretixEventInfo) (rowId : Nat)
    (name : String) : Option PretixEventInfo :=
  info.map (fun r => if r.id = rowId then { r with event_name := name } else r)

/-- `saveEventInfo`: fetch the external event name (a failed fetch is the
`none` argument), then insert a local event-info row when none exists, else
update the existing row with the fetched name.  Insert/update of the row
(not under src/) are modelled from the spec as plain CRUD; the serial id of
a fresh row is modelled as 1. -/
def saveEventInfo (fetchedEventName : Option String) (db : EventDB) : PhaseResult :=
  match fetchedEventName with
  | none => ⟨false, db, WriteCounts.zero⟩
  | some eventNameFromAPI =>
    match db.eventInfo with
    | none =>
      ⟨true, { db with eventInfo := some ⟨1, eventNameFromAPI⟩ }, ⟨1, 0, 0⟩⟩
    | some existingEvent =>
      ⟨true,
       { db with eventInfo := updatePretixEventsInfo db.eventInfo existingEvent.id eventNameFromAPI },
       ⟨0, 1, 0⟩⟩

/-- `insertPretixItemsInfo` (database/queries/pretixItemInfo): plain SQL
insert of an item-info row; the serial row id is passed explicitly here. -/
def insertPretixItemsInfo (rows : List PretixItemInfo) (item_id : String)
    (event_config_id : Nat) (item_name : String) (newRowId : Nat) : List PretixItemInfo :=
  rows ++ [⟨newRowId, item_id, event_config_id, item_name⟩]

/-- `updatePretixItemsInfo` (database/queries/pretixItemInfo): plain SQL
update setting the item name on the row with the given id. -/
def updatePretixItemsInfo (rows : List PretixItemInfo) (rowId : Nat)
    (item_name : String) : List PretixItemInfo :=
  rows.map (fun r => if r.id = rowId then { r with item_name := item_name } else r)

/-- `deletePretixItemInfo` (database/queries/pretixItemInfo): plain SQL hard
delete of the row with the given id. -/
def deletePretixItemInfo (rows : List PretixItemInfo) (rowId : Nat) : List PretixItemInfo :=
  rows.filter (fun r => decide (r.id ≠ rowId))

/-- The `itemsToInsert` list of `saveItemsInfo`: fetched active items whose
external id is not among the existing item-info rows. -/
def itemsToInsert (newActiveItems : List DevconnectPretixItem)
    (existingItemsInfo : List PretixItemInfo) : List DevconnectPretixItem :=
  newActiveItems.filter
    (fun i => !(mapHasKey PretixItemInfo.item_id existingItemsInfo (toString i.id)))

/-- The `itemsToUpdate` list of `saveItemsInfo`: fetched active items whose
external id already has a row and whose stored name differs from the fetched
name. -/
def itemsToUpdate (newActiveItems : List DevconnectPretixItem)
    (existingItemsInfo : List PretixItemInfo) : List DevconnectPretixItem :=
  (newActiveItems.filter
      (fun i => mapHasKey PretixItemInfo.item_id existingItemsInfo (toString i.id))).filter
    (fun i =>
      match mapGetLast PretixItemInfo.item_id existingItemsInfo (toString i.id) with
      | some oldItem => decide (oldItem.item_name ≠ i.name)
      | none => false)

/-- The `itemsToRemove` list of `saveItemsInfo`: existing item-info rows whose
external id no longer appears among the fetched active items. -/
def itemsToRemove (newActiveItems : List DevconnectPretixItem)
    (existingItemsInfo : List PretixItemInfo) : List PretixItemInfo :=
  existingItemsInfo.filter
    (fun e => !(mapHasKey (fun i => toString i.id) newActiveItems e.item_id))

/-- The insert loop of `saveItemsInfo`: insert each new item in order,
assigning consecutive serial row ids starting from `nextRowId`. -/
def insertItems (rows : List PretixItemInfo) (eventConfigID : Nat) (nextRowId : Nat) :
    List DevconnectPretixItem → List PretixItemInfo
  | [] => rows
  | i :: rest =>
    insertItems (insertPretixItemsInfo rows (toString i.id) eventConfigID i.name nextRowId)
      eventConfigID (nextRowId + 1) rest

/-- The update loop of `saveItemsInfo`: for each changed item, look the old
row up in the map built from the originally fetched rows and update that row
id with the fetched name. -/
def applyItemUpdates (rows existingItemsInfo : List PretixItemInfo)
    (items : List DevconnectPretixItem) : List PretixItemInfo :=
  items.foldl
    (fun acc i =>
      match mapGetLast PretixItemInfo.item_id existingItemsInfo (toString i.id) with
      | some oldItem => updatePretixItemsInfo acc oldItem.id i.name
      | none => acc)
    rows

/-- The delete loop of `saveItemsInfo`: hard-delete each removed row by id. -/
def applyItemDeletes (rows : List PretixItemInfo)
    (toRemove : List PretixItemInfo) : List PretixItemInfo :=
  toRemove.foldl (fun acc e => deletePretixItemInfo acc e.id) rows

/-- `saveItemsInfo`: fetch the item catalog (a failed fetch is the `none`
argument); fail hard — leaving the database untouched — when some configured
active item id is absent from the catalog; otherwise compute the change-set
between the catalog's active subset and the stored rows and apply inserts,
then updates, then deletes.  Serial ids for inserted rows start at
`nextItemRowId`. -/
def saveItemsInfo (event : DevconnectPretixEventConfig)
    (fetchedItems : Option (List DevconnectPretixItem)) (nextItemRowId : Nat)
    (db : EventDB) : PhaseResult :=
  match fetchedItems with
  | none => ⟨false, db, WriteCounts.zero⟩
  | some itemsFromAPI =>
    if event.activeItemIDs.any
        (fun i => !(itemsFromAPI.any (fun j => decide (toString j.id = i)))) then
      ⟨false, db, WriteCounts.zero⟩
    else
      let newActiveItems := itemsFromAPI.filter
        (fun i => event.activeItemIDs.any (fun a => decide (a = toString i.id)))
      let existingItemsInfo := db.itemInfos
      let ins := itemsToInsert newActiveItems existingItemsInfo
      let upd := itemsToUpdate newActiveItems existingItemsInfo
      let rem := itemsToRemove newActiveItems existingItemsInfo
      let rows1 := insertItems db.itemInfos event.id nextItemRowId ins
      let rows2 := applyItemUpdates rows1 existingItemsInfo upd
      let rows3 := applyItemDeletes rows2 rem
      ⟨true, { db with itemInfos := rows3 }, ⟨ins.length, upd.length, rem.length⟩⟩

/-- Modelled from the spec: `getEmailAndItemKey` (util/devconnectTicket is
not under src/) — ticket identity is "derived from the pair (normalized
email, owning item)". -/
def ticketKey (t : DevconnectPretixTicket) : String × Nat :=
  (t.email, t.devconnect_pretix_items_info_id)

/-- Modelled from the spec: `fetchDevconnectPretixTicketsByEvent`
(database/queries is not under src/) — the ticket-phase change-set is
computed "against existing non-deleted local tickets for the event", so the
fetch returns the event's non-deleted rows. -/
def fetchDevconnectPretixTicketsByEvent (rows : List DevconnectPretixTicket) :
    List DevconnectPretixTicket :=
  rows.filter (fun t => !t.is_deleted)

/-- Modelled from the spec: `pretixTicketsDifferent` (util/devconnectTicket
is not under src/) — a ticket is updated when its "full-name or owning-item
differs". -/
def pretixTicketsDifferent (a b : DevconnectPretixTicket) : Bool :=
  decide (a.full_name ≠ b.full_name) ||
    decide (a.devconnect_pretix_items_info_id ≠ b.devconnect_pretix_items_info_id)

/-- Modelled from the spec: `insertDevconnectPretixTicket`
(database/queries is not under src/) — a plain insert of one ticket row
("simple CRUD functions over a relational store"). -/
def insertDevconnectPretixTicket (rows : List DevconnectPretixTicket)
    (t : DevconnectPretixTicket) : List DevconnectPretixTicket :=
  rows ++ [t]

/-- Modelled from the spec: `updateDevconnectPretixTicket`
(database/queries is not under src/) — update the non-deleted row(s)
identified by the (email, owning item) pair to the given ticket. -/
def updateDevconnectPretixTicket (rows : List DevconnectPretixTicket)
    (t : DevconnectPretixTicket) : List DevconnectPretixTicket :=
  rows.map (fun r => if r.is_deleted = false ∧ ticketKey r = ticketKey t then t else r)

/-- Modelled from the spec: `softDeleteDevconnectPretixTicket`
(database/queries is not under src/) — set the soft-delete flag on the
row(s) identified by the (email, owning item) pair; the row is retained. -/
def softDeleteDevconnectPretixTicket (rows : List DevconnectPretixTicket)
    (t : DevconnectPretixTicket) : List DevconnectPretixTicket :=
  rows.map (fun r => if ticketKey r = ticketKey t then { r with is_deleted := true } else r)

/-- The `newTickets` list of `saveTickets`: projected tickets whose
(email, item) key is absent from the existing non-deleted rows. -/
def newTicketsOf (tickets existingTickets : List DevconnectPretixTicket) :
    List DevconnectPretixTicket :=
  tickets.filter (fun t => !(mapHasKey ticketKey existingTickets (ticketKey t)))

/-- The `updatedTickets` list of `saveTickets`: projected tickets whose key
is present among the existing non-deleted rows and which differ (by
`pretixTicketsDifferent`) from the map's row for that key. -/
def updatedTicketsOf (tickets existingTickets : List DevconnectPretixTicket) :
    List DevconnectPretixTicket :=
  (tickets.filter (fun t => mapHasKey ticketKey existingTickets (ticketKey t))).filter
    (fun t =>
      match mapGetLast ticketKey existingTickets (ticketKey t) with
      | some oldTicket => pretixTicketsDifferent oldTicket t
      | none => false)

/-- The `removedTickets` list of `saveTickets`: existing non-deleted rows
whose key no longer appears among the projected tickets. -/
def removedTicketsOf (tickets existingTickets : List DevconnectPretixTicket) :
    List DevconnectPretixTicket :=
  existingTickets.filter (fun e => !(mapHasKey ticketKey tickets (ticketKey e)))

/-- `saveTickets`: fetch current orders (a failed fetch is the `none`
argument), project them into candidate tickets against the item-info rows
refreshed in the preceding phase, compute the change-set against the
existing non-deleted ticket rows, and apply inserts, then updates, then
soft-deletes, in that order. -/
def saveTickets (fetchedOrders : Option (List DevconnectPretixOrder))
    (db : EventDB) : PhaseResult :=
  match fetchedOrders with
  | none => ⟨false, db, WriteCounts.zero⟩
  | some pretixOrders =>
    let tickets := ordersToDevconnectTickets pretixOrders db.itemInfos
    let existingTickets := fetchDevconnectPretixTicketsByEvent db.tickets
    let newTickets := newTicketsOf tickets existingTickets
    let updatedTickets := updatedTicketsOf tickets existingTickets
    let removedTickets := removedTicketsOf tickets existingTickets
    let rows1 := newTickets.foldl insertDevconnectPretixTicket db.tickets
    let rows2 := updatedTickets.foldl updateDevconnectPretixTicket rows1
    let rows3 := removedTickets.foldl softDeleteDevconnectPretixTicket rows2
    ⟨true, { db with tickets := rows3 },
     ⟨newTickets.length, updatedTickets.length, removedTickets.length⟩⟩

/-- The external data one sync cycle fetches for one (organizer, event)
pair; `none` stands for a fetch that threw. -/
structure SyncFetchData where
  eventName : Option String
  items : Option (List DevconnectPretixItem)
  orders : Option (List DevconnectPretixOrder)

/-- Result of `syncAllPretixForOrganizerAndEvent`: the database afterwards
and which of the later phases were actually entered. -/
structure SyncResult where
  db : EventDB
  ranItemPhase : Bool
  ranTicketPhase : Bool
deriving DecidableEq, Repr

/-- `syncAllPretixForOrganizerAndEvent`: run the event-info phase, the item
phase and the ticket phase in order, aborting the pair's remaining phases as
soon as one returns false. -/
def syncAllPretixForOrganizerAndEvent (event : DevconnectPretixEventConfig)
    (fetched : SyncFetchData) (nextItemRowId : Nat) (db : EventDB) : SyncResult :=
  if (saveEventInfo fetched.eventName db).ok = false then
    ⟨(saveEventInfo fetched.eventName db).db, false, false⟩
  else if (saveItemsInfo event fetched.items nextItemRowId
      (saveEventInfo fetched.eventName db).db).ok = false then
    ⟨(saveItemsInfo event fetched.items nextItemRowId
        (saveEventInfo fetched.eventName db).db).db, true, false⟩
  else
    ⟨(saveTickets fetched.orders
        (saveItemsInfo event fetched.items nextItemRowId
          (saveEventInfo fetched.eventName db).db).db).db, true, true⟩

/-- Events observable by the sync scheduler's timer loop: the armed timeout
firing (which starts the next cycle), an in-flight cycle finishing (which
arms the timeout, as `trySync` does after awaiting), and a `stop()` call
(which clears the armed timeout and nothing else). -/
inductive SchedEvent
  | timerFire
  | cycleFinish
  | stopCall
deriving DecidableEq, Repr

/-- Scheduler state of `DevconnectPretixSyncService`: whether a timeout is
armed, whether a sync cycle is in flight, and how many cycles have started. -/
structure SchedulerState where
  timeoutArmed : Bool
  cycleInFlight : Bool
  cyclesStarted : Nat
deriving DecidableEq, Repr

/-- One step of the scheduler.  `timerFire` can only happen while the timeout
is armed and begins a new cycle; `cycleFinish` can only happen while a cycle
is in flight and re-arms the timeout (`this.timeout = setTimeout(...)`);
`stopCall` clears the armed timeout (`clearTimeout`) and sets no other flag,
exactly as `stop()` does. -/
def schedStep (s : SchedulerState) : SchedEvent → SchedulerState
  | .timerFire =>
    if s.timeoutArmed then
      { timeoutArmed := false, cycleInFlight := true, cyclesStarted := s.cyclesStarted + 1 }
    else s
  | .cycleFinish =>
    if s.cycleInFlight then
      { timeoutArmed := true, cycleInFlight := false, cyclesStarted := s.cyclesStarted }
    else s
  | .stopCall => { s with timeoutArmed := false }

/-- Run the scheduler over a list of events. -/
def schedRun (s : SchedulerState) (es : List SchedEvent) : SchedulerState :=
  es.foldl schedStep s

/-- The state right after `startSyncLoop()`: `trySync()` is invoked
immediately (the first cycle is in flight and counted) and no timeout is
armed yet. -/
def startSyncLoopState : SchedulerState :=
  { timeoutArmed := false, cycleInFlight := true, cyclesStarted := 1 }

section MapLemmas

variable {α κ : Type} [DecidableEq κ]

theorem mapHasKey_iff (key : α → κ) (l : List α) (k : κ) :
    mapHasKey key l k = true ↔ ∃ x ∈ l, key x = k := by
  simp [mapHasKey, List.any_eq_true]

theorem mapHasKey_eq_false (key : α → κ) (l : List α) (k : κ) :
    mapHasKey key l k = false ↔ ∀ x ∈ l, key x ≠ k := by
  rw [← Bool.not_eq_true, mapHasKey_iff]
  push_neg
  rfl

theorem mapGetLast_mem {key : α → κ} {l : List α} {k : κ} {x : α}
    (h : mapGetLast key l k = some x) : x ∈ l ∧ key x = k := by
  induction l with
  | nil => simp [mapGetLast] at h
  | cons y ys ih =>
    rw [mapGetLast] at h
    cases h' : mapGetLast key ys k with
    | some z =>
      rw [h'] at h
      simp only [Option.some.injEq] at h
      subst h
      exact ⟨List.mem_cons_of_mem _ (ih h').1, (ih h').2⟩
    | none =>
      rw [h'] at h
      by_cases hy : key y = k
      · rw [if_pos hy] at h
        simp only [Option.some.injEq] at h
        subst h
        exact ⟨List.mem_cons_self _ _, hy⟩
      · rw [if_neg hy] at h
        exact absurd h (by simp)

theorem mapGetLast_eq_none {key : α → κ} {l : List α} {k : κ} :
    mapGetLast key l k = none ↔ ∀ x ∈ l, key x ≠ k := by
  induction l with
  | nil => simp [mapGetLast]
  | cons y ys ih =>
    rw [mapGetLast]
    cases h' : mapGetLast key ys k with
    | some z =>
      simp only [reduceCtorEq, false_iff]
      intro hall
      exact hall z (List.mem_cons_of_mem _ (mapGetLast_mem h').1) (mapGetLast_mem h').2
    | none =>
      by_cases hy : key y = k
      · simp [if_pos hy, hy]
      · simp only [if_neg hy]
        simp only [List.mem_cons, forall_eq_or_imp]
        rw [← ih]
        simp [h', hy]

theorem mapGetLast_isSome_iff {key : α → κ} {l : List α} {k : κ} :
    (mapGetLast key l k).isSome = true ↔ ∃ x ∈ l, key x = k := by
  cases h : mapGetLast key l k with
  | none =>
    rw [mapGetLast_eq_none] at h
    simp only [Option.isSome_none, Bool.false_eq_true, false_iff]
    push_neg
    exact h
  | some x =>
    simp only [Option.isSome_some, true_iff]
    exact ⟨x, (mapGetLast_mem h).1, (mapGetLast_mem h).2⟩

theorem mapGetLast_append_some {key : α → κ} {l₂ : List α} {k : κ} {y : α}
    (h : mapGetLast key l₂ k = some y) (l₁ : List α) :
    mapGetLast key (l₁ ++ l₂) k = some y := by
  induction l₁ with
  | nil => simpa using h
  | cons x xs ih => simp [mapGetLast, ih]

theorem mapGetLast_append_none {key : α → κ} {l₂ : List α} {k : κ}
    (h : mapGetLast key l₂ k = none) (l₁ : List α) :
    mapGetLast key (l₁ ++ l₂) k = mapGetLast key l₁ k := by
  induction l₁ with
  | nil => simpa using h
  | cons x xs ih =>
    simp only [List.cons_append, mapGetLast, List.append_eq, ih]

theorem mapGetLast_map {key : α → κ} {f : α → α} (hf : ∀ a, key (f a) = key a)
    (l : List α) (k : κ) :
    mapGetLast key (l.map f) k = (mapGetLast key l k).map f := by
  induction l with
  | nil => rfl
  | cons x xs ih =>
    simp only [List.map_cons, mapGetLast, ih]
    cases mapGetLast key xs k with
    | some y => rfl
    | none => simp only [Option.map_none, hf x]
              by_cases hx : key x = k <;> simp [hx]

theorem mapGetLast_filter_of_class_true {key : α → κ} {p : α → Bool} {k : κ}
    (hp : ∀ a, key a = k → p a = true) (l : List α) :
    mapGetLast key (l.filter p) k = mapGetLast key l k := by
  induction l with
  | nil => rfl
  | cons x xs ih =>
    by_cases hx : p x
    · rw [List.filter_cons_of_pos hx]
      simp only [mapGetLast, ih]
    · rw [List.filter_cons_of_neg (by simpa using hx)]
      rw [ih]
      have hkx : key x ≠ k := fun hk => hx (hp x hk)
      simp only [mapGetLast]
      cases mapGetLast key xs k with
      | some y => rfl
      | none => simp [hkx]

theorem mapGetLast_of_pairwise {key : α → κ} {l : List α}
    (hl : l.Pairwise (fun a b => key a ≠ key b)) {x : α} (hx : x ∈ l) :
    mapGetLast key l (key x) = some x := by
  induction l with
  | nil => cases hx
  | cons y ys ih =>
    rw [List.pairwise_cons] at hl
    rw [List.mem_cons] at hx
    cases hx with
    | inl h =>
      subst h
      have hnone : mapGetLast key ys (key x) = none := by
        rw [mapGetLast_eq_none]
        intro b hb
        exact fun hbk => hl.1 b hb hbk.symm
      simp [mapGetLast, hnone]
    | inr h =>
      have := ih hl.2 h
      simp [mapGetLast, this]

theorem mapHasKey_congr_perm {key : α → κ} {l₁ l₂ : List α}
    (h : l₁.Perm l₂) (k : κ) : mapHasKey key l₁ k = mapHasKey key l₂ k := by
  cases hh : mapHasKey key l₂ k with
  | false =>
    rw [mapHasKey_eq_false] at hh ⊢
    exact fun x hx => hh x (h.mem_iff.mp hx)
  | true =>
    rw [mapHasKey_iff] at hh ⊢
    obtain ⟨x, hx, hk⟩ := hh
    exact ⟨x, h.mem_iff.mpr hx, hk⟩

theorem mapGetLast_congr_perm {key : α → κ} {l₁ l₂ : List α}
    (hp : l₁.Pairwise (fun a b => key a ≠ key b)) (h : l₁.Perm l₂) (k : κ) :
    mapGetLast key l₁ k = mapGetLast key l₂ k := by
  have hp₂ : l₂.Pairwise (fun a b => key a ≠ key b) :=
    (h.pairwise_iff fun hab => Ne.symm hab).mp hp
  cases hh : mapGetLast key l₁ k with
  | none =>
    rw [mapGetLast_eq_none] at hh
    symm
    rw [mapGetLast_eq_none]
    exact fun x hx => hh x (h.mem_iff.mpr hx)
  | some x =>
    obtain ⟨hm, hk⟩ := mapGetLast_mem hh
    symm
    subst hk
    exact mapGetLast_of_pairwise hp₂ (h.mem_iff.mp hm)

end MapLemmas

/-- Every ticket emitted by the projection has its soft-delete flag false:
the literal in `ordersToDevconnectTickets` is `is_deleted: false`. -/
theorem projection_not_deleted (orders : List DevconnectPretixOrder)
    (itemsInfo : List PretixItemInfo) :
    ∀ t ∈ ordersToDevconnectTickets orders itemsInfo, t.is_deleted = false := by
  intro t ht
  rw [ordersToDevconnectTickets, List.mem_flatMap] at ht
  obtain ⟨o, _, hto⟩ := ht
  rw [orderToTickets] at hto
  split at hto
  · rw [List.mem_filterMap] at hto
    obtain ⟨p, _, hp⟩ := hto
    rw [positionToTicket] at hp
    split at hp
    · exact absurd hp (by simp)
    · simp only [Option.some.injEq] at hp
      subst hp
      rfl
  · cases hto

/-- C6: an order whose status is not the literal paid code "p" contributes no
tickets, whatever its positions hold: its own contribution is empty and
removing it from any order list leaves the projection unchanged. -/
theorem unpaid_order_yields_no_tickets (order : DevconnectPretixOrder)
    (itemsInfo : List PretixItemInfo) (h : order.status ≠ "p") :
    orderToTickets itemsInfo order = [] ∧
      ∀ pre post : List DevconnectPretixOrder,
        ordersToDevconnectTickets (pre ++ order :: post) itemsInfo =
          ordersToDevconnectTickets (pre ++ post) itemsInfo := by
  have hempty : orderToTickets itemsInfo order = [] := by
    rw [orderToTickets, if_neg h]
  refine ⟨hempty, fun pre post => ?_⟩
  simp [ordersToDevconnectTickets, hempty]

theorem unpaid_order_yields_no_tickets_witness :
    orderToTickets [⟨5, "10", 2, "GA"⟩]
        ⟨"A1", "c", "buyer@example.com", [⟨1, 10, "N", some "a@b.c"⟩]⟩ = [] :=
  (unpaid_order_yields_no_tickets
    ⟨"A1", "c", "buyer@example.com", [⟨1, 10, "N", some "a@b.c"⟩]⟩
    [⟨5, "10", 2, "GA"⟩] (by decide)).1

/-- C7: in a paid order, a position whose item is in the item-info map and
which carries a non-empty attendee email yields exactly one ticket, with that
email lower-cased and the matching row's local id as owning item; a position
whose item is not in the map is silently dropped; and a paid order's tickets
are exactly the per-position results. -/
theorem paid_tracked_position_yields_one_ticket
    (itemsInfo : List PretixItemInfo) (orderEmail : String)
    (p : DevconnectPretixPosition) (info : PretixItemInfo) (e : String)
    (hinfo : mapGetLast PretixItemInfo.item_id itemsInfo (toString p.item) = some info)
    (he : p.attendee_email = some e) (hne : e ≠ "") :
    positionToTicket itemsInfo orderEmail p =
      some ⟨jsToLower e, p.attendee_name, info.id, false⟩ ∧
    (∀ q : DevconnectPretixPosition,
        mapGetLast PretixItemInfo.item_id itemsInfo (toString q.item) = none →
        positionToTicket itemsInfo orderEmail q = none) ∧
    ∀ order : DevconnectPretixOrder, order.status = "p" →
      orderToTickets itemsInfo order =
        order.positions.filterMap (positionToTicket itemsInfo order.email) := by
  refine ⟨?_, ?_, ?_⟩
  · rw [positionToTicket, hinfo]
    simp [jsOrElse, he, hne]
  · intro q hq
    rw [positionToTicket, hq]
  · intro order ho
    rw [orderToTickets, if_pos ho]

theorem paid_tracked_position_yields_one_ticket_witness :
    positionToTicket [⟨5, "10", 2, "GA"⟩] "buyer@example.com"
        ⟨1, 10, "Ada", some "X@Y.com"⟩ =
      some ⟨"x@y.com", "Ada", 5, false⟩ := by
  have h := (paid_tracked_position_yields_one_ticket [⟨5, "10", 2, "GA"⟩]
    "buyer@example.com" ⟨1, 10, "Ada", some "X@Y.com"⟩ ⟨5, "10", 2, "GA"⟩ "X@Y.com"
    (by decide) (by decide) (by decide)).1
  rw [h]
  decide

/-- C8: a tracked position of a paid order whose attendee email is absent or
empty is not dropped — it yields a ticket whose email is the purchaser email
lower-cased — and the condition is logged (logging is non-fatal: the ticket
is still emitted); the email is lower-cased on the attendee path as well. -/
theorem missing_email_falls_back_to_purchaser
    (itemsInfo : List PretixItemInfo) (orderEmail : String)
    (p : DevconnectPretixPosition) (info : PretixItemInfo)
    (hinfo : mapGetLast PretixItemInfo.item_id itemsInfo (toString p.item) = some info)
    (he : p.attendee_email = none ∨ p.attendee_email = some "") :
    positionToTicket itemsInfo orderEmail p =
      some ⟨jsToLower orderEmail, p.attendee_name, info.id, false⟩ ∧
    positionLogsMissingEmail itemsInfo p = true ∧
    ∀ (q : DevconnectPretixPosition) (qinfo : PretixItemInfo) (e : String),
      mapGetLast PretixItemInfo.item_id itemsInfo (toString q.item) = some qinfo →
      q.attendee_email = some e → e ≠ "" →
      positionToTicket itemsInfo orderEmail q =
        some ⟨jsToLower e, q.attendee_name, qinfo.id, false⟩ := by
  refine ⟨?_, ?_, ?_⟩
  · rw [positionToTicket, hinfo]
    cases he with
    | inl h => simp [jsOrElse, h]
    | inr h => simp [jsOrElse, h]
  · rw [positionLogsMissingEmail, hinfo]
    cases he with
    | inl h => simp [h]
    | inr h => simp [h]
  · intro q qinfo e hq hqe hne
    rw [positionToTicket, hq]
    simp [jsOrElse, hqe, hne]

theorem missing_email_falls_back_to_purchaser_witness :
    positionToTicket [⟨5, "10", 2, "GA"⟩] "Buyer@Example.com"
        ⟨1, 10, "Ada", none⟩ =
      some ⟨"buyer@example.com", "Ada", 5, false⟩ ∧
    positionLogsMissingEmail [⟨5, "10", 2, "GA"⟩] ⟨1, 10, "Ada", none⟩ = true := by
  have h := missing_email_falls_back_to_purchaser [⟨5, "10", 2, "GA"⟩]
    "Buyer@Example.com" ⟨1, 10, "Ada", none⟩ ⟨5, "10", 2, "GA"⟩ (by decide) (Or.inl rfl)
  refine ⟨?_, h.2.1⟩
  rw [h.1]
  decide

/-- C10: an empty-string attendee email is treated exactly like an absent
one — the emitted ticket's email is the purchaser email lower-cased, and
replacing the empty email by an absent one yields the same result — and
every ticket the projection emits has its soft-delete flag false. -/
theorem empty_attendee_email_like_absent
    (itemsInfo : List PretixItemInfo) (orderEmail : String)
    (p : DevconnectPretixPosition) (info : PretixItemInfo)
    (hinfo : mapGetLast PretixItemInfo.item_id itemsInfo (toString p.item) = some info)
    (he : p.attendee_email = some "") :
    positionToTicket itemsInfo orderEmail p =
      some ⟨jsToLower orderEmail, p.attendee_name, info.id, false⟩ ∧
    positionToTicket itemsInfo orderEmail { p with attendee_email := none } =
      positionToTicket itemsInfo orderEmail p ∧
    ∀ (orders : List DevconnectPretixOrder) (t : DevconnectPretixTicket),
      t ∈ ordersToDevconnectTickets orders itemsInfo → t.is_deleted = false := by
  refine ⟨?_, ?_, fun orders t ht => projection_not_deleted orders itemsInfo t ht⟩
  · rw [positionToTicket, hinfo]
    simp [jsOrElse, he]
  · have h1 : positionToTicket itemsInfo orderEmail p =
        some ⟨jsToLower orderEmail, p.attendee_name, info.id, false⟩ := by
      rw [positionToTicket, hinfo]
      simp [jsOrElse, he]
    have h2 : positionToTicket itemsInfo orderEmail { p with attendee_email := none } =
        some ⟨jsToLower orderEmail, p.attendee_name, info.id, false⟩ := by
      rw [positionToTicket]
      simp only
      rw [hinfo]
      simp [jsOrElse]
    rw [h1, h2]

theorem empty_attendee_email_like_absent_witness :
    positionToTicket [⟨5, "10", 2, "GA"⟩] "Buyer@Example.com"
        ⟨1, 10, "Ada", some ""⟩ =
      some ⟨"buyer@example.com", "Ada", 5, false⟩ := by
  have h := (empty_attendee_email_like_absent [⟨5, "10", 2, "GA"⟩] "Buyer@Example.com"
    ⟨1, 10, "Ada", some ""⟩ ⟨5, "10", 2, "GA"⟩ (by decide) rfl).1
  rw [h]
  decide

/-- A scheduler state with no armed timeout and no in-flight cycle never
moves again: every event is disabled (or a no-op `clearTimeout`). -/
theorem schedRun_stuck {s : SchedulerState} (ha : s.timeoutArmed = false)
    (hf : s.cycleInFlight = false) (es : List SchedEvent) : schedRun s es = s := by
  induction es with
  | nil => rfl
  | cons e es ih =>
    have hstep : schedStep s e = s := by
      cases s
      cases e <;> simp_all [schedStep]
    rw [schedRun, List.foldl_cons, hstep]
    exact ih

/-- C9 counterexample: `stop()` invoked while a cycle is in flight does not
prevent future cycles.  Start the loop (first cycle in flight), call
`stop()` (no timeout is armed yet, so `clearTimeout` has nothing to clear);
the in-flight cycle then finishes and re-arms the timeout, and when it fires
a second cycle starts — after `stop()`. -/
theorem stop_during_inflight_cycle_does_not_halt :
    (schedRun (schedStep startSyncLoopState SchedEvent.stopCall)
        [SchedEvent.cycleFinish, SchedEvent.timerFire]).cyclesStarted =
      startSyncLoopState.cyclesStarted + 1 := by decide

/-- C9 amended: when `stop()` is invoked while NO cycle is in flight, the
pending timeout (if any) is cleared and no future cycle ever starts; when a
cycle is in flight at `stop()` time, its completion re-arms the timer and
the loop keeps running (see the counterexample). -/
theorem stop_when_idle_prevents_future_cycles (s : SchedulerState)
    (h : s.cycleInFlight = false) (es : List SchedEvent) :
    (schedRun (schedStep s SchedEvent.stopCall) es).cyclesStarted = s.cyclesStarted := by
  have hrun : schedRun (schedStep s SchedEvent.stopCall) es = schedStep s SchedEvent.stopCall := by
    apply schedRun_stuck
    · rfl
    · exact h
  rw [hrun]
  rfl

theorem stop_when_idle_prevents_future_cycles_witness :
    (schedRun (schedStep ⟨true, false, 3⟩ SchedEvent.stopCall)
        [SchedEvent.timerFire, SchedEvent.cycleFinish, SchedEvent.timerFire]).cyclesStarted = 3 :=
  stop_when_idle_prevents_future_cycles ⟨true, false, 3⟩ rfl
    [SchedEvent.timerFire, SchedEvent.cycleFinish, SchedEvent.timerFire]

/-- C4 counterexample: with the stored event name equal to the fetched name
("GA" both), `saveEventInfo` still issues one update write against the
event-info table — the source updates unconditionally whenever a local
record exists. -/
theorem saveEventInfo_writes_even_when_name_equal :
    (saveEventInfo (some "GA") ⟨some ⟨1, "GA"⟩, [], []⟩).writes = ⟨0, 1, 0⟩ ∧
    (⟨some ⟨1, "GA"⟩, [], []⟩ : EventDB).eventInfo = some ⟨1, "GA"⟩ := by decide

/-- C4 amended: `saveEventInfo` inserts a local event record when none
exists; when a local record exists it always issues exactly one update
writing the fetched name — whether or not the fetched name differs from the
stored one. -/
theorem saveEventInfo_behaviour (fetchedName : String) (db : EventDB) :
    (db.eventInfo = none →
      saveEventInfo (some fetchedName) db =
        ⟨true, { db with eventInfo := some ⟨1, fetchedName⟩ }, ⟨1, 0, 0⟩⟩) ∧
    ∀ r : PretixEventInfo, db.eventInfo = some r →
      saveEventInfo (some fetchedName) db =
        ⟨true, { db with eventInfo := some ⟨r.id, fetchedName⟩ }, ⟨0, 1, 0⟩⟩ := by
  constructor
  · intro h
    rw [saveEventInfo, h]
  · intro r h
    rw [saveEventInfo, h]
    simp [updatePretixEventsInfo, h]

theorem saveEventInfo_behaviour_witness :
    saveEventInfo (some "GA") ⟨some ⟨7, "Old"⟩, [], []⟩ =
      ⟨true, ⟨some ⟨7, "GA"⟩, [], []⟩, ⟨0, 1, 0⟩⟩ :=
  (saveEventInfo_behaviour "GA" ⟨some ⟨7, "Old"⟩, [], []⟩).2 ⟨7, "Old"⟩ rfl

/-- The event-metadata phase never touches the item-info or ticket tables. -/
theorem saveEventInfo_leaves_items_and_tickets (x : Option String) (db : EventDB) :
    (saveEventInfo x db).db.itemInfos = db.itemInfos ∧
    (saveEventInfo x db).db.tickets = db.tickets := by
  cases x with
  | none => exact ⟨rfl, rfl⟩
  | some name =>
    cases h : db.eventInfo with
    | none => rw [saveEventInfo, h]; exact ⟨rfl, rfl⟩
    | some r => rw [saveEventInfo, h]; exact ⟨rfl, rfl⟩

/-- C1: when some configured active item id is absent from the fetched
catalog, the item phase throws before issuing any write: `saveItemsInfo`
returns failure with the database unchanged and zero item-row writes, and
`syncAllPretixForOrganizerAndEvent` aborts before the ticket phase, leaving
the item-info rows exactly as they were. -/
theorem missing_active_item_aborts_pair
    (event : DevconnectPretixEventConfig) (itemsFromAPI : List DevconnectPretixItem)
    (fetched : SyncFetchData) (nextItemRowId : Nat) (db : EventDB)
    (hf : fetched.items = some itemsFromAPI)
    (hmiss : ∃ a ∈ event.activeItemIDs, ∀ j ∈ itemsFromAPI, toString j.id ≠ a) :
    (∀ db' : EventDB, ∀ n : Nat,
      saveItemsInfo event (some itemsFromAPI) n db' = ⟨false, db', WriteCounts.zero⟩) ∧
    (syncAllPretixForOrganizerAndEvent event fetched nextItemRowId db).ranTicketPhase = false ∧
    (syncAllPretixForOrganizerAndEvent event fetched nextItemRowId db).db.itemInfos =
      db.itemInfos := by
  have hguard : event.activeItemIDs.any
      (fun i => !(itemsFromAPI.any (fun j => decide (toString j.id = i)))) = true := by
    obtain ⟨a, ha, hall⟩ := hmiss
    rw [List.any_eq_true]
    refine ⟨a, ha, ?_⟩
    simp only [Bool.not_eq_true', List.any_eq_false, decide_eq_false_iff_not,
      decide_eq_true_eq]
    exact hall
  have hfail : ∀ db' : EventDB, ∀ n : Nat,
      saveItemsInfo event (some itemsFromAPI) n db' = ⟨false, db', WriteCounts.zero⟩ := by
    intro db' n
    rw [saveItemsInfo]
    simp only [hguard, if_true]
  refine ⟨hfail, ?_⟩
  rw [syncAllPretixForOrganizerAndEvent]
  by_cases h1 : (saveEventInfo fetched.eventName db).ok = false
  · rw [if_pos h1]
    exact ⟨rfl, (saveEventInfo_leaves_items_and_tickets fetched.eventName db).1⟩
  · rw [if_neg h1, hf,
      hfail (saveEventInfo fetched.eventName db).db nextItemRowId, if_pos rfl]
    exact ⟨rfl, (saveEventInfo_leaves_items_and_tickets fetched.eventName db).1⟩

theorem missing_active_item_aborts_pair_witness :
    saveItemsInfo ⟨3, "event-a", ["99"]⟩ (some [⟨10, "GA"⟩]) 1
        ⟨none, [⟨5, "10", 3, "GA"⟩], []⟩ =
      ⟨false, ⟨none, [⟨5, "10", 3, "GA"⟩], []⟩, WriteCounts.zero⟩ ∧
    (syncAllPretixForOrganizerAndEvent ⟨3, "event-a", ["99"]⟩
        ⟨some "Event A", some [⟨10, "GA"⟩], some []⟩ 1
        ⟨none, [⟨5, "10", 3, "GA"⟩], []⟩).ranTicketPhase = false := by
  have h := missing_active_item_aborts_pair ⟨3, "event-a", ["99"]⟩ [⟨10, "GA"⟩]
    ⟨some "Event A", some [⟨10, "GA"⟩], some []⟩ 1 ⟨none, [⟨5, "10", 3, "GA"⟩], []⟩
    rfl ⟨"99", by decide, by decide⟩
  exact ⟨h.1 ⟨none, [⟨5, "10", 3, "GA"⟩], []⟩ 1, h.2.1⟩

/-- C2: the item change-set of `saveItemsInfo` partitions by identity key
(the stringified external item id): to-insert are desired items whose key is
absent from the existing rows; to-update are desired items whose key is
present and whose stored name differs (the paired old row being the map's
row for that key); to-delete are existing rows whose key is absent from the
desired items.  On the spec's concrete instance (existing A(v1), B(v1);
desired A(v2), C(v1)) the lists are exactly [C], [A] (paired with A's
storage id 1) and [B]; and all three lists are stable, as sets, under
reordering of either input. -/
theorem change_set_computation
    (desired : List DevconnectPretixItem) (existing : List PretixItemInfo)
    (he : existing.Pairwise (fun a b => a.item_id ≠ b.item_id)) :
    (∀ i, i ∈ itemsToInsert desired existing ↔
        i ∈ desired ∧ ∀ r ∈ existing, r.item_id ≠ toString i.id) ∧
    (∀ i, i ∈ itemsToUpdate desired existing ↔
        i ∈ desired ∧ ∃ r ∈ existing, r.item_id = toString i.id ∧ r.item_name ≠ i.name) ∧
    (∀ r, r ∈ itemsToRemove desired existing ↔
        r ∈ existing ∧ ∀ i ∈ desired, toString i.id ≠ r.item_id) ∧
    (∀ (d' : List DevconnectPretixItem) (e' : List PretixItemInfo),
        desired.Perm d' → existing.Perm e' →
        (itemsToInsert desired existing).Perm (itemsToInsert d' e') ∧
        (itemsToUpdate desired existing).Perm (itemsToUpdate d' e') ∧
        (itemsToRemove desired existing).Perm (itemsToRemove d' e')) ∧
    (itemsToInsert [⟨10, "v2"⟩, ⟨30, "v1"⟩] [⟨1, "10", 7, "v1"⟩, ⟨2, "20", 7, "v1"⟩] =
        [⟨30, "v1"⟩] ∧
      itemsToUpdate [⟨10, "v2"⟩, ⟨30, "v1"⟩] [⟨1, "10", 7, "v1"⟩, ⟨2, "20", 7, "v1"⟩] =
        [⟨10, "v2"⟩] ∧
      mapGetLast PretixItemInfo.item_id [⟨1, "10", 7, "v1"⟩, ⟨2, "20", 7, "v1"⟩]
          (toString (10 : Nat)) = some ⟨1, "10", 7, "v1"⟩ ∧
      itemsToRemove [⟨10, "v2"⟩, ⟨30, "v1"⟩] [⟨1, "10", 7, "v1"⟩, ⟨2, "20", 7, "v1"⟩] =
        [⟨2, "20", 7, "v1"⟩]) := by
  refine ⟨?_, ?_, ?_, ?_, by decide, by decide, by decide, by decide⟩
  · intro i
    rw [itemsToInsert, List.mem_filter, Bool.not_eq_true', mapHasKey_eq_false]
  · intro i
    rw [itemsToUpdate, List.mem_filter, List.mem_filter]
    constructor
    · rintro ⟨⟨hmem, _⟩, hdiff⟩
      cases hget : mapGetLast PretixItemInfo.item_id existing (toString i.id) with
      | none => rw [hget] at hdiff; cases hdiff
      | some r =>
        rw [hget] at hdiff
        obtain ⟨hr, hk⟩ := mapGetLast_mem hget
        exact ⟨hmem, r, hr, hk, by simpa using hdiff⟩
    · rintro ⟨hmem, r, hr, hk, hname⟩
      have hget : mapGetLast PretixItemInfo.item_id existing (toString i.id) = some r := by
        have hu := mapGetLast_of_pairwise he hr
        rwa [hk] at hu
      refine ⟨⟨hmem, ?_⟩, ?_⟩
      · rw [mapHasKey_iff]
        exact ⟨r, hr, hk⟩
      · rw [hget]
        simpa using hname
  · intro r
    rw [itemsToRemove, List.mem_filter, Bool.not_eq_true', mapHasKey_eq_false]
  · intro d' e' hdp hep
    refine ⟨?_, ?_, ?_⟩
    · have h1 : itemsToInsert d' e' = d'.filter
          (fun i => !(mapHasKey PretixItemInfo.item_id existing (toString i.id))) := by
        rw [itemsToInsert]
        refine List.filter_congr fun x _ => ?_
        rw [mapHasKey_congr_perm hep]
      rw [h1]
      exact hdp.filter _
    · have h1 : itemsToUpdate d' e' =
          (d'.filter (fun i => mapHasKey PretixItemInfo.item_id existing (toString i.id))).filter
            (fun i =>
              match mapGetLast PretixItemInfo.item_id existing (toString i.id) with
              | some oldItem => decide (oldItem.item_name ≠ i.name)
              | none => false) := by
        rw [itemsToUpdate]
        have h2 : d'.filter
            (fun i => mapHasKey PretixItemInfo.item_id e' (toString i.id)) = d'.filter
            (fun i => mapHasKey PretixItemInfo.item_id existing (toString i.id)) := by
          refine List.filter_congr fun x _ => ?_
          rw [mapHasKey_congr_perm hep]
        rw [h2]
        refine List.filter_congr fun x _ => ?_
        rw [mapGetLast_congr_perm he hep]
      rw [h1]
      exact (hdp.filter _).filter _
    · have h1 : itemsToRemove d' e' = e'.filter
          (fun e => !(mapHasKey (fun i => toString i.id) desired e.item_id)) := by
        rw [itemsToRemove]
        refine List.filter_congr fun x _ => ?_
        rw [mapHasKey_congr_perm hdp]
      rw [h1]
      exact hep.filter _

theorem change_set_computation_witness :
    itemsToInsert [⟨10, "v2"⟩, ⟨30, "v1"⟩] [⟨1, "10", 7, "v1"⟩, ⟨2, "20", 7, "v1"⟩] =
        [⟨30, "v1"⟩] ∧
      itemsToUpdate [⟨10, "v2"⟩, ⟨30, "v1"⟩] [⟨1, "10", 7, "v1"⟩, ⟨2, "20", 7, "v1"⟩] =
        [⟨10, "v2"⟩] ∧
      mapGetLast PretixItemInfo.item_id [⟨1, "10", 7, "v1"⟩, ⟨2, "20", 7, "v1"⟩]
          (toString (10 : Nat)) = some ⟨1, "10", 7, "v1"⟩ ∧
      itemsToRemove [⟨10, "v2"⟩, ⟨30, "v1"⟩] [⟨1, "10", 7, "v1"⟩, ⟨2, "20", 7, "v1"⟩] =
        [⟨2, "20", 7, "v1"⟩] :=
  (change_set_computation [⟨10, "v2"⟩, ⟨30, "v1"⟩]
    [⟨1, "10", 7, "v1"⟩, ⟨2, "20", 7, "v1"⟩] (by decide)).2.2.2.2

/-- The invariant of the ticket table: at most one non-deleted row per
(email, owning item) key — the non-deleted rows have pairwise-distinct keys. -/
def TicketsInvariant (rows : List DevconnectPretixTicket) : Prop :=
  (rows.filter (fun t => !t.is_deleted)).Pairwise (fun a b => ticketKey a ≠ ticketKey b)

instance (rows : List DevconnectPretixTicket) : Decidable (TicketsInvariant rows) :=
  inferInstanceAs (Decidable (List.Pairwise _ _))

/-- Unfolding equation of `mapGetLast` on a cons cell. -/
theorem mapGetLast_cons {α κ : Type} [DecidableEq κ] (key : α → κ) (x : α)
    (xs : List α) (k : κ) :
    mapGetLast key (x :: xs) k =
      match mapGetLast key xs k with
      | some y => some y
      | none => if key x = k then some x else none := rfl

/-- Pointwise effect on one row of running the whole update loop of
`saveTickets` over the list `ts` of changed tickets: a non-deleted row whose
key occurs in `ts` is replaced by the (last) such ticket. -/
def updApply (ts : List DevconnectPretixTicket) (r : DevconnectPretixTicket) :
    DevconnectPretixTicket :=
  if r.is_deleted = true then r
  else (mapGetLast ticketKey ts (ticketKey r)).getD r

/-- Pointwise effect on one row of running the whole soft-delete loop of
`saveTickets` over the list `ts` of removed tickets: a row whose key occurs
in `ts` gets its soft-delete flag set. -/
def delApply (ts : List DevconnectPretixTicket) (r : DevconnectPretixTicket) :
    DevconnectPretixTicket :=
  if mapHasKey ticketKey ts (ticketKey r) then { r with is_deleted := true } else r

theorem ticketKey_updApply (ts : List DevconnectPretixTicket)
    (r : DevconnectPretixTicket) : ticketKey (updApply ts r) = ticketKey r := by
  rw [updApply]
  by_cases hd : r.is_deleted = true
  · rw [if_pos hd]
  · rw [if_neg hd]
    cases ht : mapGetLast ticketKey ts (ticketKey r) with
    | none => rfl
    | some t =>
      rw [Option.getD_some]
      exact (mapGetLast_mem ht).2

theorem is_deleted_updApply {ts : List DevconnectPretixTicket}
    (hts : ∀ t ∈ ts, t.is_deleted = false) (r : DevconnectPretixTicket) :
    (updApply ts r).is_deleted = r.is_deleted := by
  rw [updApply]
  by_cases hd : r.is_deleted = true
  · rw [if_pos hd]
  · rw [if_neg hd]
    cases ht : mapGetLast ticketKey ts (ticketKey r) with
    | none => rfl
    | some t =>
      rw [Option.getD_some, hts t (mapGetLast_mem ht).1]
      simp only [Bool.not_eq_true] at hd
      rw [hd]

theorem ticketKey_delApply (ts : List DevconnectPretixTicket)
    (r : DevconnectPretixTicket) : ticketKey (delApply ts r) = ticketKey r := by
  rw [delApply]
  by_cases hk : mapHasKey ticketKey ts (ticketKey r)
  · rw [if_pos hk]
    rfl
  · rw [if_neg hk]

theorem is_deleted_delApply (ts : List DevconnectPretixTicket)
    (r : DevconnectPretixTicket) :
    (delApply ts r).is_deleted = (r.is_deleted || mapHasKey ticketKey ts (ticketKey r)) := by
  rw [delApply]
  by_cases hk : mapHasKey ticketKey ts (ticketKey r)
  · rw [if_pos hk, hk]
    simp
  · rw [if_neg hk]
    simp only [Bool.not_eq_true] at hk
    rw [hk]
    simp

/-- The insert loop of `saveTickets` appends the new tickets in order. -/
theorem foldl_insert_tickets (rows ts : List DevconnectPretixTicket) :
    ts.foldl insertDevconnectPretixTicket rows = rows ++ ts := by
  induction ts generalizing rows with
  | nil => simp
  | cons t ts ih =>
    rw [List.foldl_cons, ih, insertDevconnectPretixTicket]
    simp

/-- One update statement followed by the pointwise effect of the remaining
updates equals the pointwise effect of all of them. -/
theorem updApply_step (t : DevconnectPretixTicket) (ts : List DevconnectPretixTicket)
    (ht : t.is_deleted = false) (r : DevconnectPretixTicket) :
    updApply ts (if r.is_deleted = false ∧ ticketKey r = ticketKey t then t else r) =
      updApply (t :: ts) r := by
  by_cases hd : r.is_deleted = true
  · have hno : ¬ (r.is_deleted = false ∧ ticketKey r = ticketKey t) := by
      intro hand
      rw [hand.1] at hd
      cases hd
    rw [if_neg hno, updApply, updApply, if_pos hd, if_pos hd]
  · simp only [Bool.not_eq_true] at hd
    by_cases hk : ticketKey r = ticketKey t
    · rw [if_pos ⟨hd, hk⟩, updApply, updApply,
        if_neg (by rw [ht]; simp), if_neg (by rw [hd]; simp)]
      rw [mapGetLast_cons, ← hk]
      cases hts' : mapGetLast ticketKey ts (ticketKey r) with
      | some u => rfl
      | none => simp
    · rw [if_neg (fun hand => hk hand.2), updApply, updApply,
        if_neg (by rw [hd]; simp), if_neg (by rw [hd]; simp)]
      rw [mapGetLast_cons]
      cases hts' : mapGetLast ticketKey ts (ticketKey r) with
      | some u => rfl
      | none =>
        have hne : ticketKey t ≠ ticketKey r := fun h => hk h.symm
        simp [hne]

/-- One soft-delete statement followed by the pointwise effect of the
remaining soft-deletes equals the pointwise effect of all of them. -/
theorem delApply_step (t : DevconnectPretixTicket) (ts : List DevconnectPretixTicket)
    (r : DevconnectPretixTicket) :
    delApply ts (if ticketKey r = ticketKey t then { r with is_deleted := true } else r) =
      delApply (t :: ts) r := by
  by_cases hk : ticketKey r = ticketKey t
  · rw [if_pos hk, delApply, delApply]
    have hkey : ticketKey { r with is_deleted := true } = ticketKey r := rfl
    have hhas : mapHasKey ticketKey (t :: ts) (ticketKey r) = true := by
      rw [mapHasKey_iff]
      exact ⟨t, List.mem_cons_self t ts, hk.symm⟩
    rw [hkey, hhas, if_pos rfl]
    by_cases h2 : mapHasKey ticketKey ts (ticketKey r)
    · rw [if_pos h2]
    · rw [if_neg h2]
  · rw [if_neg hk, delApply, delApply]
    have hsame : mapHasKey ticketKey (t :: ts) (ticketKey r) =
        mapHasKey ticketKey ts (ticketKey r) := by
      simp only [mapHasKey, List.any_cons]
      rw [decide_eq_false (fun h => hk h.symm)]
      simp
    rw [hsame]

/-- The update loop of `saveTickets` acts pointwise on the rows: provided no
changed ticket is itself soft-deleted, each row is transformed by
`updApply`. -/
theorem foldl_update_tickets {ts : List DevconnectPretixTicket}
    (hts : ∀ t ∈ ts, t.is_deleted = false) (rows : List DevconnectPretixTicket) :
    ts.foldl updateDevconnectPretixTicket rows = rows.map (updApply ts) := by
  induction ts generalizing rows with
  | nil =>
    rw [List.foldl_nil]
    symm
    have hid : ∀ r, updApply [] r = r := by
      intro r
      rw [updApply]
      split
      · rfl
      · rfl
    rw [List.map_congr_left fun r _ => hid r]
    exact List.map_id' rows
  | cons t ts ih =>
    rw [List.foldl_cons, ih (fun u hu => hts u (List.mem_cons_of_mem _ hu)),
      updateDevconnectPretixTicket, List.map_map]
    exact List.map_congr_left fun r _ =>
      updApply_step t ts (hts t (List.mem_cons_self t ts)) r

/-- The soft-delete loop of `saveTickets` acts pointwise on the rows: each
row whose key occurs among the removed tickets gets its flag set. -/
theorem foldl_softDelete_tickets (ts rows : List DevconnectPretixTicket) :
    ts.foldl softDeleteDevconnectPretixTicket rows = rows.map (delApply ts) := by
  induction ts generalizing rows with
  | nil =>
    rw [List.foldl_nil]
    symm
    have hid : ∀ r, delApply [] r = r := by
      intro r
      rw [delApply]
      split
      · simp [mapHasKey] at *
      · rfl
    rw [List.map_congr_left fun r _ => hid r]
    exact List.map_id' rows
  | cons t ts ih =>
    rw [List.foldl_cons, ih, softDeleteDevconnectPretixTicket, List.map_map]
    exact List.map_congr_left fun r _ => delApply_step t ts r

/-- The rows of the ticket table after one successful ticket phase with
projected tickets `T` and existing non-deleted rows `E`: the new tickets are
appended and the updates and soft-deletes act pointwise. -/
def ticketPhaseRows (T E rows : List DevconnectPretixTicket) : List DevconnectPretixTicket :=
  ((rows ++ newTicketsOf T E).map (updApply (updatedTicketsOf T E))).map
    (delApply (removedTicketsOf T E))

/-- The write counts of one successful ticket phase: the lengths of the
three change lists. -/
def ticketPhaseWrites (T E : List DevconnectPretixTicket) : WriteCounts :=
  ⟨(newTicketsOf T E).length, (updatedTicketsOf T E).length, (removedTicketsOf T E).length⟩

/-- Explicit form of a successful `saveTickets` run: with `T` the projected
tickets and `E` the existing non-deleted rows, the phase appends the new
tickets to the table and then applies the updates and the soft-deletes
pointwise, and reports the three change-list lengths as its write counts. -/
theorem saveTickets_some (pretixOrders : List DevconnectPretixOrder) (db : EventDB) :
    saveTickets (some pretixOrders) db =
      ⟨true,
       { db with
           tickets := ticketPhaseRows
             (ordersToDevconnectTickets pretixOrders db.itemInfos)
             (fetchDevconnectPretixTicketsByEvent db.tickets) db.tickets },
       ticketPhaseWrites (ordersToDevconnectTickets pretixOrders db.itemInfos)
         (fetchDevconnectPretixTicketsByEvent db.tickets)⟩ := by
  have hU : ∀ t ∈ updatedTicketsOf (ordersToDevconnectTickets pretixOrders db.itemInfos)
      (fetchDevconnectPretixTicketsByEvent db.tickets), t.is_deleted = false := fun t ht =>
    projection_not_deleted _ _ t (List.mem_of_mem_filter (List.mem_of_mem_filter ht))
  simp only [saveTickets]
  rw [foldl_insert_tickets, foldl_update_tickets hU, foldl_softDelete_tickets]
  rfl

theorem pretixTicketsDifferent_self (t : DevconnectPretixTicket) :
    pretixTicketsDifferent t t = false := by
  simp [pretixTicketsDifferent]

/-- In a list with pairwise-distinct keys, two members with the same key are
the same element. -/
theorem pairwise_key_eq {α κ : Type} [DecidableEq κ] {key : α → κ} {l : List α}
    (hl : l.Pairwise fun a b => key a ≠ key b) {t u : α}
    (htl : t ∈ l) (hul : u ∈ l) (hk : key u = key t) : u = t := by
  by_contra hne
  have hsymm : Symmetric (fun a b => key a ≠ key b) := fun a b hab h => hab h.symm
  exact hl.forall hsymm hul htl hne hk

/-- A head whose key does not match is invisible to `mapGetLast`. -/
theorem mapGetLast_cons_of_ne {α κ : Type} [DecidableEq κ] {key : α → κ} {x : α}
    {k : κ} (hx : key x ≠ k) (l : List α) :
    mapGetLast key (x :: l) k = mapGetLast key l k := by
  rw [mapGetLast_cons]
  cases mapGetLast key l k with
  | some y => rfl
  | none => simp [hx]

/-- Two filters that agree on the key class of `k` give the same
`mapGetLast` at `k`. -/
theorem mapGetLast_filter_congr {α κ : Type} [DecidableEq κ] {key : α → κ}
    {p q : α → Bool} {k : κ} (h : ∀ r, key r = k → p r = q r) (l : List α) :
    mapGetLast key (l.filter p) k = mapGetLast key (l.filter q) k := by
  induction l with
  | nil => rfl
  | cons x xs ih =>
    by_cases hk : key x = k
    · have hpq := h x hk
      by_cases hp : p x
      · rw [List.filter_cons_of_pos hp, List.filter_cons_of_pos (by rw [← hpq]; exact hp),
          mapGetLast_cons, mapGetLast_cons, ih]
      · rw [List.filter_cons_of_neg hp,
          List.filter_cons_of_neg (by rw [← hpq]; exact hp), ih]
    · by_cases hp : p x
      · rw [List.filter_cons_of_pos hp, mapGetLast_cons_of_ne hk]
        by_cases hq : q x
        · rw [List.filter_cons_of_pos hq, mapGetLast_cons_of_ne hk, ih]
        · rw [List.filter_cons_of_neg (by simpa using hq), ih]
      · rw [List.filter_cons_of_neg hp]
        by_cases hq : q x
        · rw [List.filter_cons_of_pos hq, mapGetLast_cons_of_ne hk, ih]
        · rw [List.filter_cons_of_neg (by simpa using hq), ih]

/-- No removed ticket carries a key that still occurs among the projected
tickets. -/
theorem removed_key_not_projected {T E : List DevconnectPretixTicket} {k : String × Nat}
    (hk : mapHasKey ticketKey T k = true) :
    mapHasKey ticketKey (removedTicketsOf T E) k = false := by
  rw [mapHasKey_eq_false]
  intro e he hke
  rw [removedTicketsOf] at he
  have h2 := (List.mem_filter.mp he).2
  rw [hke, hk] at h2
  cases h2

/-- The composite pointwise action of the update loop then the soft-delete
loop preserves each row's key. -/
theorem ticketKey_phase_map (U R : List DevconnectPretixTicket)
    (r : DevconnectPretixTicket) :
    ticketKey (delApply R (updApply U r)) = ticketKey r := by
  rw [ticketKey_delApply, ticketKey_updApply]

/-- Soft-delete status of a row after the update loop and the soft-delete
loop: the row is deleted afterwards exactly when it was deleted before or
its key occurs among the removed tickets. -/
theorem is_deleted_phase_map {U : List DevconnectPretixTicket}
    (hU : ∀ t ∈ U, t.is_deleted = false) (R : List DevconnectPretixTicket)
    (r : DevconnectPretixTicket) :
    (delApply R (updApply U r)).is_deleted =
      (r.is_deleted || mapHasKey ticketKey R (ticketKey r)) := by
  rw [is_deleted_delApply, is_deleted_updApply hU, ticketKey_updApply]

/-- The pointwise action of one ticket phase on a row already in the table:
the update loop then the soft-delete loop. -/
def phaseMap (T E : List DevconnectPretixTicket) (r : DevconnectPretixTicket) :
    DevconnectPretixTicket :=
  delApply (removedTicketsOf T E) (updApply (updatedTicketsOf T E) r)

/-- Shape of the non-deleted rows after one ticket phase: the original rows
that were non-deleted and not soft-deleted by this phase, followed by the
freshly inserted tickets, each transformed pointwise by `phaseMap`. -/
theorem ticketPhaseRows_filter (T E rows : List DevconnectPretixTicket)
    (hT : ∀ t ∈ T, t.is_deleted = false) :
    (ticketPhaseRows T E rows).filter (fun x => !x.is_deleted) =
      (rows.filter (fun r =>
          !r.is_deleted && !(mapHasKey ticketKey (removedTicketsOf T E) (ticketKey r)))).map
        (phaseMap T E) ++
      (newTicketsOf T E).map (phaseMap T E) := by
  have hU : ∀ t ∈ updatedTicketsOf T E, t.is_deleted = false := fun t ht =>
    hT t (List.mem_of_mem_filter (List.mem_of_mem_filter ht))
  have hGdel : ∀ r, (!(phaseMap T E r).is_deleted) =
      (!r.is_deleted && !(mapHasKey ticketKey (removedTicketsOf T E) (ticketKey r))) := by
    intro r
    rw [phaseMap, is_deleted_phase_map hU, Bool.not_or]
  have hcomp : (delApply (removedTicketsOf T E) ∘ updApply (updatedTicketsOf T E)) =
      phaseMap T E := rfl
  rw [ticketPhaseRows, List.map_map, hcomp, List.filter_map, List.filter_append,
    List.map_append]
  congr 1
  · congr 1
    refine List.filter_congr fun r _ => ?_
    exact hGdel r
  · congr 1
    refine List.filter_eq_self.mpr fun n hn => ?_
    have hnT : n ∈ T := List.mem_of_mem_filter hn
    show (!(phaseMap T E n).is_deleted) = true
    rw [hGdel n, hT n hnT]
    have hr : mapHasKey ticketKey (removedTicketsOf T E) (ticketKey n) = false :=
      removed_key_not_projected (by rw [mapHasKey_iff]; exact ⟨n, hnT, rfl⟩)
    rw [hr]
    rfl

theorem ticketKey_phaseMap (T E : List DevconnectPretixTicket)
    (r : DevconnectPretixTicket) : ticketKey (phaseMap T E r) = ticketKey r :=
  ticketKey_phase_map _ _ r

/-- Every non-deleted row left by one ticket phase carries the key of some
projected ticket: surviving originals were not removed (so their key is
still projected) and inserted rows come from the projection itself. -/
theorem ticketPhaseRows_keys_projected (T rows : List DevconnectPretixTicket)
    (hT : ∀ t ∈ T, t.is_deleted = false) :
    ∀ e ∈ (ticketPhaseRows T (fetchDevconnectPretixTicketsByEvent rows) rows).filter
        (fun x => !x.is_deleted),
      mapHasKey ticketKey T (ticketKey e) = true := by
  intro e he
  rw [ticketPhaseRows_filter T _ rows hT, List.mem_append] at he
  cases he with
  | inl h =>
    rw [List.mem_map] at h
    obtain ⟨r, hr, rfl⟩ := h
    rw [ticketKey_phaseMap]
    obtain ⟨hrrows, hcond⟩ := List.mem_filter.mp hr
    simp only [Bool.and_eq_true, Bool.not_eq_true'] at hcond
    by_contra hkT
    have hkT' : mapHasKey ticketKey T (ticketKey r) = false := by
      cases h2 : mapHasKey ticketKey T (ticketKey r) with
      | false => rfl
      | true => exact absurd h2 hkT
    have hrR : r ∈ removedTicketsOf T (fetchDevconnectPretixTicketsByEvent rows) := by
      rw [removedTicketsOf, List.mem_filter]
      refine ⟨?_, by rw [hkT']; rfl⟩
      rw [fetchDevconnectPretixTicketsByEvent, List.mem_filter]
      exact ⟨hrrows, by rw [hcond.1]; rfl⟩
    have : mapHasKey ticketKey
        (removedTicketsOf T (fetchDevconnectPretixTicketsByEvent rows)) (ticketKey r) = true := by
      rw [mapHasKey_iff]
      exact ⟨r, hrR, rfl⟩
    rw [this] at hcond
    cases hcond.2
  | inr h =>
    rw [List.mem_map] at h
    obtain ⟨n, hn, rfl⟩ := h
    rw [ticketKey_phaseMap, mapHasKey_iff]
    exact ⟨n, List.mem_of_mem_filter hn, rfl⟩

/-- After one ticket phase, the non-deleted rows' map carries, at each
projected ticket's key, a row that is not "different" from that ticket: a
second run with the same projection finds nothing to update. -/
theorem ticketPhaseRows_getLast (T rows : List DevconnectPretixTicket)
    (hT : ∀ t ∈ T, t.is_deleted = false)
    (hdist : T.Pairwise fun a b => ticketKey a ≠ ticketKey b)
    {t : DevconnectPretixTicket} (ht : t ∈ T) :
    ∃ o, mapGetLast ticketKey
        ((ticketPhaseRows T (fetchDevconnectPretixTicketsByEvent rows) rows).filter
          (fun x => !x.is_deleted)) (ticketKey t) = some o ∧
      pretixTicketsDifferent o t = false := by
  rw [ticketPhaseRows_filter T _ rows hT]
  set E := fetchDevconnectPretixTicketsByEvent rows with hE
  set R := removedTicketsOf T E with hRdef
  set U := updatedTicketsOf T E with hUdef
  set N := newTicketsOf T E with hNdef
  have hRk : mapHasKey ticketKey R (ticketKey t) = false := by
    rw [hRdef]
    exact removed_key_not_projected (by rw [mapHasKey_iff]; exact ⟨t, ht, rfl⟩)
  have hUsub : List.Sublist U T := by
    rw [hUdef, updatedTicketsOf]
    exact (List.filter_sublist _).trans (List.filter_sublist _)
  have hNsub : List.Sublist N T := by
    rw [hNdef, newTicketsOf]
    exact List.filter_sublist _
  by_cases hhasE : mapHasKey ticketKey E (ticketKey t) = true
  · have hNone : mapGetLast ticketKey (N.map (phaseMap T E)) (ticketKey t) = none := by
      rw [mapGetLast_eq_none]
      intro x hx hke
      rw [List.mem_map] at hx
      obtain ⟨n, hn, rfl⟩ := hx
      rw [ticketKey_phaseMap] at hke
      have hnT : n ∈ T := hNsub.subset hn
      have hnt : n = t := pairwise_key_eq hdist ht hnT hke
      subst hnt
      rw [hNdef, newTicketsOf, List.mem_filter, hhasE] at hn
      exact absurd hn.2 (by simp)
    rw [mapGetLast_append_none hNone]
    rw [mapGetLast_map (ticketKey_phaseMap T E)]
    have hcongr : mapGetLast ticketKey
        (rows.filter (fun r => !r.is_deleted && !(mapHasKey ticketKey R (ticketKey r))))
        (ticketKey t) =
        mapGetLast ticketKey (rows.filter (fun r => !r.is_deleted)) (ticketKey t) := by
      refine mapGetLast_filter_congr (fun r hrk => ?_) rows
      rw [hrk, hRk]
      simp
    rw [hcongr]
    have hEeq : rows.filter (fun r => !r.is_deleted) = E := by
      rw [hE, fetchDevconnectPretixTicketsByEvent]
    rw [hEeq]
    obtain ⟨e₀, he₀mem, he₀key⟩ := (mapHasKey_iff ticketKey E (ticketKey t)).mp hhasE
    obtain ⟨o₀, ho₀⟩ : ∃ o₀, mapGetLast ticketKey E (ticketKey t) = some o₀ := by
      have hs : (mapGetLast ticketKey E (ticketKey t)).isSome = true :=
        mapGetLast_isSome_iff.mpr ⟨e₀, he₀mem, he₀key⟩
      cases hmg : mapGetLast ticketKey E (ticketKey t) with
      | none => rw [hmg] at hs; cases hs
      | some o₀ => exact ⟨o₀, rfl⟩
    rw [ho₀]
    obtain ⟨ho₀mem, ho₀key⟩ := mapGetLast_mem ho₀
    have ho₀del : o₀.is_deleted = false := by
      rw [hE, fetchDevconnectPretixTicketsByEvent] at ho₀mem
      have := (List.mem_filter.mp ho₀mem).2
      simpa using this
    refine ⟨phaseMap T E o₀, rfl, ?_⟩
    by_cases htU : t ∈ U
    · have hget : mapGetLast ticketKey U (ticketKey t) = some t :=
        mapGetLast_of_pairwise (hdist.sublist hUsub) htU
      rw [phaseMap, ← hUdef, ← hRdef, updApply, if_neg (by rw [ho₀del]; simp),
        ho₀key, hget, Option.getD_some, delApply]
      rw [if_neg (by rw [hRk]; simp)]
      exact pretixTicketsDifferent_self t
    · have hgetU : mapGetLast ticketKey U (ticketKey t) = none := by
        rw [mapGetLast_eq_none]
        intro u hu hku
        have huT : u ∈ T := hUsub.subset hu
        have hut : u = t := pairwise_key_eq hdist ht huT hku
        subst hut
        exact htU hu
      rw [phaseMap, ← hUdef, ← hRdef, updApply, if_neg (by rw [ho₀del]; simp),
        ho₀key, hgetU, Option.getD_none, delApply]
      rw [if_neg (by rw [ho₀key, hRk]; simp)]
      cases hb : pretixTicketsDifferent o₀ t with
      | false => rfl
      | true =>
        exfalso
        apply htU
        rw [hUdef, updatedTicketsOf, List.mem_filter]
        refine ⟨List.mem_filter.mpr ⟨ht, hhasE⟩, ?_⟩
        rw [ho₀]
        exact hb
  · have hfirstNone : mapGetLast ticketKey
        ((rows.filter (fun r => !r.is_deleted && !(mapHasKey ticketKey R (ticketKey r)))).map
          (phaseMap T E)) (ticketKey t) = none := by
      rw [mapGetLast_eq_none]
      intro x hx hke
      rw [List.mem_map] at hx
      obtain ⟨r, hr, rfl⟩ := hx
      rw [ticketKey_phaseMap] at hke
      obtain ⟨hrrows, hcond⟩ := List.mem_filter.mp hr
      simp only [Bool.and_eq_true, Bool.not_eq_true'] at hcond
      have hrE : r ∈ E := by
        rw [hE, fetchDevconnectPretixTicketsByEvent, List.mem_filter]
        exact ⟨hrrows, by rw [hcond.1]; rfl⟩
      have : mapHasKey ticketKey E (ticketKey t) = true := by
        rw [mapHasKey_iff]
        exact ⟨r, hrE, hke⟩
      exact hhasE this
    have htN : t ∈ N := by
      rw [hNdef, newTicketsOf, List.mem_filter]
      refine ⟨ht, ?_⟩
      cases h2 : mapHasKey ticketKey E (ticketKey t) with
      | false => rfl
      | true => exact absurd h2 hhasE
    have hNget : mapGetLast ticketKey (N.map (phaseMap T E)) (ticketKey t) =
        some (phaseMap T E t) := by
      rw [mapGetLast_map (ticketKey_phaseMap T E)]
      rw [mapGetLast_of_pairwise (hdist.sublist hNsub) htN]
      rfl
    rw [mapGetLast_append_some hNget]
    refine ⟨phaseMap T E t, rfl, ?_⟩
    have htdel : t.is_deleted = false := hT t ht
    have hgetU : mapGetLast ticketKey U (ticketKey t) = none := by
      rw [mapGetLast_eq_none]
      intro u hu hku
      have huT : u ∈ T := hUsub.subset hu
      have hut : u = t := pairwise_key_eq hdist ht huT hku
      subst hut
      rw [hUdef, updatedTicketsOf, List.mem_filter, List.mem_filter] at hu
      exact hhasE hu.1.2
    rw [phaseMap, ← hUdef, ← hRdef, updApply, if_neg (by rw [htdel]; simp),
      hgetU, Option.getD_none, delApply]
    rw [if_neg (by rw [hRk]; simp)]
    exact pretixTicketsDifferent_self t

theorem updApply_nil (r : DevconnectPretixTicket) : updApply [] r = r := by
  rw [updApply]
  split
  · rfl
  · rfl

theorem delApply_nil (r : DevconnectPretixTicket) : delApply [] r = r := by
  rw [delApply]
  split
  · simp [mapHasKey] at *
  · rfl

/-- C3 counterexample: with an empty ticket table (which satisfies the
invariant) and one paid order holding two positions on the same tracked item
with the same attendee email, the projection yields two candidates with the
same (email, item) key; `saveTickets` inserts both, leaving two non-deleted
rows with the same key — the invariant is violated. -/
theorem saveTickets_uniqueness_counterexample :
    TicketsInvariant ([] : List DevconnectPretixTicket) ∧
    ¬ TicketsInvariant
        (saveTickets
          (some [⟨"A1", "p", "x@y.z",
            [⟨1, 10, "Ada", some "a@b.c"⟩, ⟨2, 10, "Bob", some "a@b.c"⟩]⟩])
          ⟨none, [⟨5, "10", 7, "GA"⟩], []⟩).db.tickets := by decide

/-- C3 amended: the ticket phase preserves the at-most-one-non-deleted-row-
per-(email, item)-key invariant whenever the projected ticket list itself
has pairwise-distinct keys; with duplicate-key candidates the invariant can
be violated (see the counterexample). -/
theorem saveTickets_preserves_uniqueness (pretixOrders : List DevconnectPretixOrder)
    (db : EventDB) (hinv : TicketsInvariant db.tickets)
    (hdist : (ordersToDevconnectTickets pretixOrders db.itemInfos).Pairwise
      (fun a b => ticketKey a ≠ ticketKey b)) :
    TicketsInvariant (saveTickets (some pretixOrders) db).db.tickets := by
  have hTnd : ∀ t ∈ ordersToDevconnectTickets pretixOrders db.itemInfos,
      t.is_deleted = false := projection_not_deleted _ _
  rw [saveTickets_some]
  show TicketsInvariant (ticketPhaseRows _ _ db.tickets)
  rw [TicketsInvariant, ticketPhaseRows_filter _ _ _ hTnd, List.pairwise_append]
  have hkeymap : ∀ a b : DevconnectPretixTicket,
      ticketKey a ≠ ticketKey b →
      ticketKey (phaseMap (ordersToDevconnectTickets pretixOrders db.itemInfos)
          (fetchDevconnectPretixTicketsByEvent db.tickets) a) ≠
        ticketKey (phaseMap (ordersToDevconnectTickets pretixOrders db.itemInfos)
          (fetchDevconnectPretixTicketsByEvent db.tickets) b) := by
    intro a b hab
    rw [ticketKey_phaseMap, ticketKey_phaseMap]
    exact hab
  refine ⟨?_, ?_, ?_⟩
  · refine List.Pairwise.map _ hkeymap ?_
    have hsub : List.Sublist
        (db.tickets.filter (fun r => !r.is_deleted &&
          !(mapHasKey ticketKey
            (removedTicketsOf (ordersToDevconnectTickets pretixOrders db.itemInfos)
              (fetchDevconnectPretixTicketsByEvent db.tickets)) (ticketKey r))))
        (db.tickets.filter (fun r => !r.is_deleted)) :=
      List.monotone_filter_right db.tickets
        (fun a ha => by
          simp only [Bool.and_eq_true] at ha
          exact ha.1)
    exact hinv.sublist hsub
  · refine List.Pairwise.map _ hkeymap ?_
    exact hdist.sublist (by rw [newTicketsOf]; exact List.filter_sublist _)
  · intro x hx y hy
    rw [List.mem_map] at hx hy
    obtain ⟨r, hr, rfl⟩ := hx
    obtain ⟨n, hn, rfl⟩ := hy
    rw [ticketKey_phaseMap, ticketKey_phaseMap]
    intro hkeq
    obtain ⟨hrrows, hrcond⟩ := List.mem_filter.mp hr
    simp only [Bool.and_eq_true, Bool.not_eq_true'] at hrcond
    have hrE : r ∈ fetchDevconnectPretixTicketsByEvent db.tickets := by
      rw [fetchDevconnectPretixTicketsByEvent, List.mem_filter]
      exact ⟨hrrows, by rw [hrcond.1]; rfl⟩
    rw [newTicketsOf, List.mem_filter] at hn
    have : mapHasKey ticketKey (fetchDevconnectPretixTicketsByEvent db.tickets)
        (ticketKey n) = true := by
      rw [mapHasKey_iff]
      exact ⟨r, hrE, hkeq⟩
    rw [this] at hn
    exact absurd hn.2 (by simp)

theorem saveTickets_preserves_uniqueness_witness :
    TicketsInvariant
      (saveTickets
        (some [⟨"A1", "p", "x@y.z", [⟨1, 10, "Ada", some "a@b.c"⟩]⟩])
        ⟨none, [⟨5, "10", 7, "GA"⟩], [⟨"old@y.z", "Old", 5, false⟩]⟩).db.tickets :=
  saveTickets_preserves_uniqueness
    [⟨"A1", "p", "x@y.z", [⟨1, 10, "Ada", some "a@b.c"⟩]⟩]
    ⟨none, [⟨5, "10", 7, "GA"⟩], [⟨"old@y.z", "Old", 5, false⟩]⟩
    (by decide) (by decide)

/-- C5 counterexample: one paid order with two positions on the same tracked
item and the same attendee email but different attendee names projects two
tickets with the same (email, item) key.  The first run inserts both rows;
on the second run with identical external data the earlier candidate differs
from the map's row for that key (last insertion wins), so the second run
issues an update — the write counts are not all zero. -/
theorem saveTickets_second_run_writes :
    (saveTickets
      (some [⟨"A1", "p", "x@y.z",
        [⟨1, 10, "Ada", some "a@b.c"⟩, ⟨2, 10, "Bob", some "a@b.c"⟩]⟩])
      (saveTickets
        (some [⟨"A1", "p", "x@y.z",
          [⟨1, 10, "Ada", some "a@b.c"⟩, ⟨2, 10, "Bob", some "a@b.c"⟩]⟩])
        ⟨none, [⟨5, "10", 7, "GA"⟩], []⟩).db).writes = ⟨0, 1, 0⟩ ∧
    (⟨0, 1, 0⟩ : WriteCounts) ≠ WriteCounts.zero := by decide

/-- C5 amended: when the projected tickets have pairwise-distinct
(email, item) keys, a second `saveTickets` run with the same fetched orders
and the same item catalog issues zero inserts, zero updates and zero
soft-deletes, and the database state after the first run is a fixed point of
the second run. -/
theorem saveTickets_idempotent (pretixOrders : List DevconnectPretixOrder)
    (db : EventDB)
    (hdist : (ordersToDevconnectTickets pretixOrders db.itemInfos).Pairwise
      (fun a b => ticketKey a ≠ ticketKey b)) :
    (saveTickets (some pretixOrders) (saveTickets (some pretixOrders) db).db).writes =
      WriteCounts.zero ∧
    (saveTickets (some pretixOrders) (saveTickets (some pretixOrders) db).db).db =
      (saveTickets (some pretixOrders) db).db := by
  have hTnd : ∀ t ∈ ordersToDevconnectTickets pretixOrders db.itemInfos,
      t.is_deleted = false := projection_not_deleted _ _
  have hdb1 : (saveTickets (some pretixOrders) db).db =
      { db with
          tickets := ticketPhaseRows (ordersToDevconnectTickets pretixOrders db.itemInfos)
            (fetchDevconnectPretixTicketsByEvent db.tickets) db.tickets } := by
    rw [saveTickets_some]
  rw [hdb1]
  rw [saveTickets_some]
  have hhas2 : ∀ t ∈ ordersToDevconnectTickets pretixOrders db.itemInfos,
      mapHasKey ticketKey
        (fetchDevconnectPretixTicketsByEvent
          (ticketPhaseRows (ordersToDevconnectTickets pretixOrders db.itemInfos)
            (fetchDevconnectPretixTicketsByEvent db.tickets) db.tickets))
        (ticketKey t) = true := by
    intro t ht
    obtain ⟨o, ho, _⟩ := ticketPhaseRows_getLast
      (ordersToDevconnectTickets pretixOrders db.itemInfos) db.tickets hTnd hdist ht
    rw [mapHasKey_iff]
    exact ⟨o, (mapGetLast_mem ho).1, (mapGetLast_mem ho).2⟩
  have hN2 : newTicketsOf (ordersToDevconnectTickets pretixOrders db.itemInfos)
      (fetchDevconnectPretixTicketsByEvent
        (ticketPhaseRows (ordersToDevconnectTickets pretixOrders db.itemInfos)
          (fetchDevconnectPretixTicketsByEvent db.tickets) db.tickets)) = [] := by
    rw [newTicketsOf]
    refine List.filter_eq_nil_iff.mpr fun t ht => ?_
    rw [hhas2 t ht]
    simp
  have hU2 : updatedTicketsOf (ordersToDevconnectTickets pretixOrders db.itemInfos)
      (fetchDevconnectPretixTicketsByEvent
        (ticketPhaseRows (ordersToDevconnectTickets pretixOrders db.itemInfos)
          (fetchDevconnectPretixTicketsByEvent db.tickets) db.tickets)) = [] := by
    rw [updatedTicketsOf]
    refine List.filter_eq_nil_iff.mpr fun t ht => ?_
    have htT : t ∈ ordersToDevconnectTickets pretixOrders db.itemInfos :=
      List.mem_of_mem_filter ht
    obtain ⟨o, ho, hod⟩ := ticketPhaseRows_getLast
      (ordersToDevconnectTickets pretixOrders db.itemInfos) db.tickets hTnd hdist htT
    have hfetch : fetchDevconnectPretixTicketsByEvent
        (ticketPhaseRows (ordersToDevconnectTickets pretixOrders db.itemInfos)
          (fetchDevconnectPretixTicketsByEvent db.tickets) db.tickets) =
        (ticketPhaseRows (ordersToDevconnectTickets pretixOrders db.itemInfos)
          (fetchDevconnectPretixTicketsByEvent db.tickets) db.tickets).filter
          (fun x => !x.is_deleted) := rfl
    rw [hfetch, ho]
    show ¬ pretixTicketsDifferent o t = true
    rw [hod]
    simp
  have hR2 : removedTicketsOf (ordersToDevconnectTickets pretixOrders db.itemInfos)
      (fetchDevconnectPretixTicketsByEvent
        (ticketPhaseRows (ordersToDevconnectTickets pretixOrders db.itemInfos)
          (fetchDevconnectPretixTicketsByEvent db.tickets) db.tickets)) = [] := by
    rw [removedTicketsOf]
    refine List.filter_eq_nil_iff.mpr fun e he => ?_
    rw [ticketPhaseRows_keys_projected
      (ordersToDevconnectTickets pretixOrders db.itemInfos) db.tickets hTnd e he]
    simp
  constructor
  · show ticketPhaseWrites _ _ = WriteCounts.zero
    rw [ticketPhaseWrites, hN2, hU2, hR2]
    rfl
  · show ({ db with
        tickets := ticketPhaseRows _ _
          (ticketPhaseRows (ordersToDevconnectTickets pretixOrders db.itemInfos)
            (fetchDevconnectPretixTicketsByEvent db.tickets) db.tickets) } : EventDB) = _
    rw [ticketPhaseRows, hN2, hU2, hR2, List.append_nil,
      List.map_congr_left fun r _ => updApply_nil r, List.map_id',
      List.map_congr_left fun r _ => delApply_nil r, List.map_id']

theorem saveTickets_idempotent_witness :
    (saveTickets
      (some [⟨"A1", "p", "x@y.z", [⟨1, 10, "Ada", some "a@b.c"⟩]⟩])
      (saveTickets
        (some [⟨"A1", "p", "x@y.z", [⟨1, 10, "Ada", some "a@b.c"⟩]⟩])
        ⟨none, [⟨5, "10", 7, "GA"⟩], [⟨"old@y.z", "Old", 5, false⟩]⟩).db).writes =
      WriteCounts.zero :=
  (saveTickets_idempotent
    [⟨"A1", "p", "x@y.z", [⟨1, 10, "Ada", some "a@b.c"⟩]⟩]
    ⟨none, [⟨5, "10", 7, "GA"⟩], [⟨"old@y.z", "Old", 5, false⟩]⟩ (by decide)).1

end DevconnectPretixSync
